import Mathlib

/-!
Verification of `vscan-anti-csrf-token-checker` (`src/main.py`) against its
natural-language specification.

The program is a linear pipeline: `validate_url` checks that the input URL
has a scheme and a network location; `get_forms` performs one HTTP GET and
parses the body into `<form>` elements; `analyze_form` computes the form's
HTTP method, its resolved absolute action URL, and whether a CSRF-token-like
hidden input is present; `main` orchestrates and sets the exit code.

`src/main.py` delegates URL parsing and joining to CPython's `urllib.parse`.
To settle claims about `validate_url` and about the resolved `action` field,
this file embeds the relevant subset of `urllib.parse` (CPython 3.11:
`urlsplit`, `urlparse`, `urlunsplit`, `urlunparse`, `urljoin`, together with
the bracketed-host validation those functions perform).  Python exceptions
are embedded as the `Except` error case; machine strings are Lean `String`s
(the embedding is exact for ASCII data; the `_checknetloc` NFKC check, which
is a no-op for ASCII network locations, is the one part not modelled).

The HTTP client and the HTML parser are external collaborators of the
program; they are embedded as an abstract fetch outcome (`HttpResponse`)
holding the response status and the parsed form list, while the status check
of `requests.Response.raise_for_status` (raise exactly on 400..599) and the
exception-to-empty-list conversion of `get_forms` are modelled faithfully.
-/

/-- Decidable equality of `Except` values (raised exception vs. result),
used to evaluate the model on concrete inputs. -/
instance {ε α : Type} [DecidableEq ε] [DecidableEq α] : DecidableEq (Except ε α) := fun a b =>
  match a, b with
  | .error e, .error f =>
    if h : e = f then .isTrue (by rw [h]) else .isFalse (fun hc => by cases hc; exact h rfl)
  | .ok x, .ok y =>
    if h : x = y then .isTrue (by rw [h]) else .isFalse (fun hc => by cases hc; exact h rfl)
  | .error _, .ok _ => .isFalse (fun hc => by cases hc)
  | .ok _, .error _ => .isFalse (fun hc => by cases hc)

/-! ### Characters and low-level string helpers (model of CPython primitives) -/

/-- The three characters of `urllib.parse._UNSAFE_URL_BYTES_TO_REMOVE`
(tab, carriage return, newline), removed from URLs per the WHATWG spec. -/
def isUnsafeChar (c : Char) : Bool := c = '\t' || c = '\r' || c = '\n'

/-- `url.replace(b, "")` for each unsafe byte, i.e. dropping every
tab/CR/LF character. -/
def removeUnsafe (l : List Char) : List Char := l.filter (fun c => !(isUnsafeChar c))

/-- Membership in `urllib.parse._WHATWG_C0_CONTROL_OR_SPACE`
(the characters U+0000 .. U+0020). -/
def isC0OrSpace (c : Char) : Bool := c.toNat ≤ 0x20

/-- `str.lstrip(_WHATWG_C0_CONTROL_OR_SPACE)`. -/
def lstripC0 (l : List Char) : List Char := l.dropWhile isC0OrSpace

/-- `str.strip(_WHATWG_C0_CONTROL_OR_SPACE)` (both ends). -/
def stripC0 (l : List Char) : List Char :=
  ((l.dropWhile isC0OrSpace).reverse.dropWhile isC0OrSpace).reverse

/-- The sanitisation `urlsplit` applies to its `url` argument:
lstrip C0-control-or-space, then remove tab/CR/LF. -/
def sanitizeUrl (l : List Char) : List Char := removeUnsafe (lstripC0 l)

/-- The sanitisation `urlsplit` applies to its default-`scheme` argument:
strip C0-control-or-space on both ends, then remove tab/CR/LF. -/
def sanitizeScheme (l : List Char) : List Char := removeUnsafe (stripC0 l)

/-- Membership in `urllib.parse.scheme_chars`
(ASCII letters, digits, `+`, `-`, `.`). -/
def schemeChar (c : Char) : Bool := c.isAlpha || c.isDigit || c = '+' || c = '-' || c = '.'

/-- Python `c.isascii() and c.isalpha()`: an ASCII letter.
(Lean's `Char.isAlpha` is exactly the ASCII-letter test.) -/
def isAsciiAlpha (c : Char) : Bool := c.isAlpha

/-- ASCII lowercasing of one character; `str.lower()` agrees with this on
ASCII input, and `urlsplit` only ever lowercases strings of `scheme_chars`. -/
def asciiLowerChar (c : Char) : Char :=
  if 'A' ≤ c && c ≤ 'Z' then Char.ofNat (c.toNat + 32) else c

/-- ASCII lowercasing of a character list. -/
def lowerChars (l : List Char) : List Char := l.map asciiLowerChar

/-- ASCII uppercasing of one character; `str.upper()` agrees with this on
ASCII input (the `method` attribute of an HTML form). -/
def asciiUpperChar (c : Char) : Char :=
  if 'a' ≤ c && c ≤ 'z' then Char.ofNat (c.toNat - 32) else c

/-- `str.upper()` (ASCII model). -/
def strUpper (s : String) : String := String.mk (s.data.map asciiUpperChar)

/-- `s.split(sep, 1)` when `sep` occurs in `s`: split at the first
occurrence of `sep`, returning the parts before and after it;
`none` when `sep` does not occur. -/
def splitOnce (sep : Char) : List Char → Option (List Char × List Char)
  | [] => none
  | c :: t =>
    if c = sep then some ([], t)
    else (splitOnce sep t).map (fun p => (c :: p.1, p.2))

/-- `str.split(sep)` (auxiliary accumulator form). -/
def splitCharAux (sep : Char) : List Char → List Char → List (List Char)
  | [], acc => [acc.reverse]
  | c :: t, acc =>
    if c = sep then acc.reverse :: splitCharAux sep t [] else splitCharAux sep t (c :: acc)

/-- `str.split(sep)` for a one-character separator: every field, in order,
with empty fields preserved (`"".split('/') == ['']`). -/
def splitChar (sep : Char) (l : List Char) : List (List Char) := splitCharAux sep l []

/-- `sep.join(parts)`. -/
def joinSep (sep : List Char) : List (List Char) → List Char
  | [] => []
  | [x] => x
  | x :: y :: t => x ++ sep ++ joinSep sep (y :: t)

/-! ### Bracketed-host validation (model of `urllib.parse._check_bracketed_host`)

`urlsplit` validates a bracketed host (`[...]` in the netloc) via
`ipaddress.ip_address`: the text must be an IPv6 address (optionally with a
`%scope`), or an `IPvFuture` literal; a plain IPv4 address in brackets is
rejected.  Only the accept/reject outcome matters to the program (a reject
is a raised `ValueError`), so the model below reproduces the acceptance
condition of CPython 3.11's `ipaddress` text parsers. -/

/-- Hexadecimal digit (Python `string.hexdigits` membership). -/
def isHexDigit (c : Char) : Bool :=
  c.isDigit || ('a' ≤ c && c ≤ 'f') || ('A' ≤ c && c ≤ 'F')

/-- Decimal value of a digit string (callers guarantee digits only). -/
def natOfDigits (l : List Char) : Nat := l.foldl (fun n c => n * 10 + (c.toNat - 48)) 0

/-- Modelled from `ipaddress._BaseV4._parse_octet`: 1-3 ASCII decimal
digits, value at most 255, no leading zero on a multi-digit octet. -/
def validOctet (l : List Char) : Bool :=
  l ≠ [] && l.length ≤ 3 && l.all Char.isDigit &&
  (l.length = 1 || l.head? ≠ some '0') && natOfDigits l ≤ 255

/-- Modelled from `ipaddress.IPv4Address`: exactly four dot-separated
valid octets. -/
def validIPv4 (l : List Char) : Bool :=
  match splitChar '.' l with
  | [a, b, c, d] => validOctet a && validOctet b && validOctet c && validOctet d
  | _ => false

/-- Modelled from `ipaddress._BaseV6._parse_hextet`: 1-4 hex digits. -/
def validHextet (l : List Char) : Bool :=
  l ≠ [] && l.length ≤ 4 && l.all isHexDigit

/-- Modelled from `ipaddress._BaseV6._ip_int_from_string`, restricted to the
accept/reject outcome: the colon-separated hextet structure of an IPv6
address, with at most one `::`, and an optional trailing dotted-quad IPv4
part (already replaced here by two synthetic hextets `"0"`). -/
def validIPv6Parts (parts : List (List Char)) : Bool :=
  if parts.length < 3 then false
  else if parts.length > 9 then false
  else
    let inner := (parts.drop 1).dropLast
    match inner.findIdx? (· = []) with
    | some j =>
      -- skip_index = j + 1 in the Python indexing
      let skip := j + 1
      if ((inner.drop (j + 1)).countP (· = []) ≠ 0) then false
      else
        let partsHi := if parts.head? = some [] then
            (if skip - 1 ≠ 0 then none else some 0) else some skip
        let partsLo := if parts.getLast? = some [] then
            (if parts.length - skip - 2 ≠ 0 then none else some 0)
          else some (parts.length - skip - 1)
        match partsHi, partsLo with
        | some hi, some lo =>
          if 8 < hi + lo + 1 then false
          else (parts.take hi).all validHextet &&
               (parts.drop (parts.length - lo)).all validHextet
        | _, _ => false
    | none =>
      parts.length = 8 && parts.head? ≠ some [] && parts.getLast? ≠ some [] &&
      parts.all validHextet

/-- Modelled from `ipaddress.IPv6Address.__init__`: split off an optional
nonempty `%scope_id` (at the first `%`; the scope must not itself contain
`%`), expand a trailing IPv4 dotted quad, then check the hextet structure. -/
def validIPv6 (l : List Char) : Bool :=
  let core : List Char → Bool := fun addr =>
    let parts := splitChar ':' addr
    match parts.getLast? with
    | some last =>
      if last.contains '.' then
        validIPv4 last && validIPv6Parts (parts.dropLast ++ [['0'], ['0']])
      else validIPv6Parts parts
    | none => false
  match splitOnce '%' l with
  | some (addr, scope) => (scope ≠ [] && !(scope.contains '%')) && core addr
  | none => core l

/-- Modelled from `urllib.parse._check_bracketed_host` (CPython 3.11):
a host written in brackets must be an `IPvFuture` literal
(`v` + hex digits + `.` + at least one character) or an IPv6 address
(optionally scoped); an IPv4 address in brackets is rejected. -/
def bracketedHostOk (host : List Char) : Bool :=
  match host with
  | 'v' :: rest =>
    (match splitOnce '.' rest with
     | some (hex, tail) => hex ≠ [] && hex.all isHexDigit && tail ≠ []
     | none => false)
  | _ => !(validIPv4 host) && validIPv6 host

/-! ### `urllib.parse.urlsplit` / `urlparse` (CPython 3.11) -/

/-- Scheme classification list `urllib.parse.uses_relative` (CPython 3.11). -/
def uses_relative : List String :=
  ["", "ftp", "http", "gopher", "nntp", "imap",
   "wais", "file", "https", "shttp", "mms",
   "prospero", "rtsp", "rtsps", "rtspu", "sftp",
   "svn", "svn+ssh", "ws", "wss"]

/-- Scheme classification list `urllib.parse.uses_netloc` (CPython 3.11). -/
def uses_netloc : List String :=
  ["", "ftp", "http", "gopher", "nntp", "telnet",
   "imap", "wais", "file", "mms", "https", "shttp",
   "snews", "prospero", "rtsp", "rtsps", "rtspu", "rsync",
   "svn", "svn+ssh", "sftp", "nfs", "git", "git+ssh",
   "ws", "wss"]

/-- Scheme classification list `urllib.parse.uses_params` (CPython 3.11). -/
def uses_params : List String :=
  ["", "ftp", "hdl", "prospero", "http", "imap",
   "https", "shttp", "rtsp", "rtsps", "rtspu", "sip",
   "sips", "mms", "sftp", "tel"]

/-- The scheme-extraction step of `urlsplit`: find the first `:`; if the part
before it is nonempty, starts with an ASCII letter, and consists of
`scheme_chars`, the scheme is that part lowercased and the remainder follows
the colon; otherwise no scheme is found. -/
def extractScheme (l : List Char) : Option (List Char × List Char) :=
  match splitOnce ':' l with
  | none => none
  | some (pre, post) =>
    match pre with
    | [] => none
    | c :: rest =>
      if isAsciiAlpha c && (c :: rest).all schemeChar then some (lowerChars (c :: rest), post)
      else none

/-- `'/?#'` delimiters ending the netloc in `_splitnetloc`. -/
def netlocDelim (c : Char) : Bool := c = '/' || c = '?' || c = '#'

/-- The `ValueError("Invalid IPv6 URL")` condition of `urlsplit`:
one bracket present without its partner. -/
def bracketMismatch (netloc : List Char) : Bool :=
  (netloc.contains '[' && !(netloc.contains ']')) ||
  (netloc.contains ']' && !(netloc.contains '['))

/-- The bracketed host of a netloc containing `[` and `]`:
`netloc.partition('[')[2].partition(']')[0]`. -/
def bracketedHost (netloc : List Char) : List Char :=
  match splitOnce '[' netloc with
  | some (_, post) =>
    (match splitOnce ']' post with
     | some (h, _) => h
     | none => post)
  | none => []

/-- Result of `urllib.parse.urlsplit`. -/
structure SplitResult where
  scheme : String
  netloc : String
  path : String
  query : String
  fragment : String
deriving Repr, DecidableEq

/-- The scheme step of `urlsplit` as a pair (scheme, remainder): the
extracted scheme, or the (sanitised) default scheme with the input left
whole when no scheme is found. -/
def schemeSplit (l : List Char) (dscheme : String) : List Char × List Char :=
  match extractScheme l with
  | some (s, r) => (s, r)
  | none => (sanitizeScheme dscheme.data, l)

/-- The netloc step of `urlsplit`: when the remainder starts with `//`, the
netloc runs up to the first `/?#` delimiter (`_splitnetloc(url, 2)`). -/
def netlocSplit (rest : List Char) : List Char × List Char :=
  if rest.take 2 = ['/', '/'] then
    ((rest.drop 2).takeWhile (fun c => !(netlocDelim c)),
     (rest.drop 2).dropWhile (fun c => !(netlocDelim c)))
  else ([], rest)

/-- The fragment and query steps of `urlsplit` (in that order), yielding
(path, query, fragment). -/
def fragQuerySplit (rest2 : List Char) : List Char × List Char × List Char :=
  let pf : List Char × List Char :=
    match splitOnce '#' rest2 with
    | some (a, b) => (a, b)
    | none => (rest2, [])
  match splitOnce '?' pf.1 with
  | some (a, b) => (a, b, pf.2)
  | none => (pf.1, [], pf.2)

/-- Model of `urllib.parse.urlsplit(url, scheme=dscheme)` (CPython 3.11,
`allow_fragments=True`).  A raised `ValueError` is the `.error` case.
The NFKC `_checknetloc` check (a no-op for every ASCII netloc) is not
modelled. -/
def urlsplitD (url : String) (dscheme : String) : Except String SplitResult :=
  let p1 := schemeSplit (sanitizeUrl url.data) dscheme
  let p2 := netlocSplit p1.2
  if bracketMismatch p2.1 then .error "Invalid IPv6 URL"
  else if p2.1.contains '[' && p2.1.contains ']' &&
          !(bracketedHostOk (bracketedHost p2.1)) then .error "invalid bracketed host"
  else
    let pqf := fragQuerySplit p2.2
    .ok ⟨String.mk p1.1, String.mk p2.1, String.mk pqf.1, String.mk pqf.2.1, String.mk pqf.2.2⟩

/-- Result of `urllib.parse.urlparse`. -/
structure ParseResult where
  scheme : String
  netloc : String
  path : String
  params : String
  query : String
  fragment : String
deriving Repr, DecidableEq

/-- Model of `urllib.parse._splitparams`: split `path` at the first `;`
after the last `/` (or the first `;` at all when there is no `/`).
Only called when `;` occurs in the path. -/
def splitparams (l : List Char) : List Char × List Char :=
  match splitOnce '/' l.reverse with
  | some (ra, rb) =>
    (match splitOnce ';' ('/' :: ra.reverse) with
     | some (a, b) => (rb.reverse ++ a, b)
     | none => (l, []))
  | none =>
    (match splitOnce ';' l with
     | some (a, b) => (a, b)
     | none => (l, []))

/-- Model of `urllib.parse.urlparse(url, scheme=dscheme)` (CPython 3.11):
`urlsplit` plus the `params` split for schemes in `uses_params`. -/
def urlparseD (url : String) (dscheme : String) : Except String ParseResult :=
  (urlsplitD url dscheme).map fun r =>
    if uses_params.contains r.scheme && r.path.data.contains ';' then
      let (p, pr) := splitparams r.path.data
      ⟨r.scheme, r.netloc, String.mk p, String.mk pr, r.query, r.fragment⟩
    else ⟨r.scheme, r.netloc, r.path, "", r.query, r.fragment⟩

/-! ### `urllib.parse.urlunsplit` / `urlunparse` / `urljoin` (CPython 3.11) -/

/-- The netloc-reattachment step of `urlunsplit` (CPython 3.11): prefix
`//netloc` (forcing the path to start with `/`) when a netloc is present, or
when the scheme uses a netloc and the path does not already start `//`. -/
def netlocPart (scheme netloc path : String) : String :=
  if netloc ≠ "" || (scheme ≠ "" && uses_netloc.contains scheme && path.data.take 2 ≠ ['/', '/'])
  then "//" ++ netloc ++ (if path ≠ "" && path.data.take 1 ≠ ['/'] then "/" ++ path else path)
  else path

/-- Model of `urllib.parse.urlunsplit` (CPython 3.11). -/
def urlunsplit (scheme netloc path query fragment : String) : String :=
  let url := netlocPart scheme netloc path
  let url := if scheme ≠ "" then scheme ++ ":" ++ url else url
  let url := if query ≠ "" then url ++ "?" ++ query else url
  if fragment ≠ "" then url ++ "#" ++ fragment else url

/-- Model of `urllib.parse.urlunparse` (CPython 3.11): re-attach `;params`
to the path, then `urlunsplit`. -/
def urlunparse (r : ParseResult) : String :=
  let u := if r.params ≠ "" then r.path ++ ";" ++ r.params else r.path
  urlunsplit r.scheme r.netloc u r.query r.fragment

/-- The `segments[1:-1] = filter(None, segments[1:-1])` step of `urljoin`:
drop empty segments, keeping the first and last element. -/
def filterMiddle : List String → List String
  | [] => []
  | [x] => [x]
  | x :: y :: xs =>
    x :: (((y :: xs).dropLast.filter (fun s => s ≠ "")) ++
          [(y :: xs).getLast (List.cons_ne_nil y xs)])

/-- The dot-segment resolution loop of `urljoin` (`resolved_path`):
`..` pops (ignoring pops of an empty stack), `.` is skipped. -/
def resolveSegs (segs : List String) : List String :=
  segs.foldl
    (fun acc seg =>
      if seg = ".." then acc.dropLast
      else if seg = "." then acc
      else acc ++ [seg]) []

/-- The pure part of `urljoin` after both URLs parsed successfully:
`url` is the raw reference string, `b` the parse of the base, `r` the parse
of the reference (with the base's scheme as default). -/
def joinParsed (url : String) (b r : ParseResult) : String :=
  if r.scheme ≠ b.scheme || !(uses_relative.contains r.scheme) then url
  else if uses_netloc.contains r.scheme && r.netloc ≠ "" then
    urlunparse ⟨r.scheme, r.netloc, r.path, r.params, r.query, r.fragment⟩
  else
    let netloc := if uses_netloc.contains r.scheme then b.netloc else r.netloc
    if r.path = "" && r.params = "" then
      urlunparse ⟨r.scheme, netloc, b.path, b.params,
                  (if r.query = "" then b.query else r.query), r.fragment⟩
    else
      let baseParts0 := (splitChar '/' b.path.data).map String.mk
      let baseParts := if baseParts0.getLast? ≠ some "" then baseParts0.dropLast else baseParts0
      let segments :=
        if r.path.data.take 1 = ['/'] then (splitChar '/' r.path.data).map String.mk
        else filterMiddle (baseParts ++ (splitChar '/' r.path.data).map String.mk)
      let resolved := resolveSegs segments
      let resolved :=
        if segments.getLast? = some "." || segments.getLast? = some ".." then resolved ++ [""]
        else resolved
      let joined := String.mk (joinSep ['/'] (resolved.map String.data))
      urlunparse ⟨r.scheme, netloc, (if joined = "" then "/" else joined),
                  r.params, r.query, r.fragment⟩

/-- Model of `urllib.parse.urljoin(base, url)` (CPython 3.11).  A
`ValueError` raised while parsing either argument is the `.error` case. -/
def urljoin (base url : String) : Except String String :=
  if base = "" then .ok url
  else if url = "" then .ok base
  else
    match urlparseD base "" with
    | .error e => .error e
    | .ok b =>
      match urlparseD url b.scheme with
      | .error e => .error e
      | .ok r => .ok (joinParsed url b r)

/-! ### The program under verification (`src/main.py`) -/

/-- `validate_url` (`src/main.py` lines 21-35): parse the URL and require a
truthy (nonempty) scheme and netloc; a bare `except:` turns any parse
error into `False`. -/
def validate_url (url : String) : Bool :=
  match urlparseD url "" with
  | .ok r => r.scheme ≠ "" && r.netloc ≠ ""
  | .error _ => false

/-- One `<input>` element descendant of a form: its `type` and `name`
attributes (`None` when absent is embedded as `none`). -/
structure InputField where
  type : Option String
  name : Option String
deriving Repr, DecidableEq

/-- One `<form>` element: its `method` and `action` attributes and its
descendant `<input>` elements in document order (the order
`form.find_all('input')` yields). -/
structure Form where
  method : Option String
  action : Option String
  inputs : List InputField
deriving Repr, DecidableEq

/-- The dictionary `analyze_form` returns on success
(`token_name` is `None`, embedded `none`, when no token field was found). -/
structure AnalysisResult where
  has_csrf_token : Bool
  token_name : Option String
  method : String
  action : String
deriving Repr, DecidableEq

/-- The four alternatives of the regular expression
`(csrf|token|xsrf|authenticity)` in `analyze_form`. -/
def tokenKeywords : List String := ["csrf", "token", "xsrf", "authenticity"]

/-- `pat` occurs as a contiguous substring of `hay`. -/
def containsSeq (pat : List Char) : List Char → Bool
  | [] => pat.isEmpty
  | c :: t => pat.isPrefixOf (c :: t) || containsSeq pat t

/-- `re.search(r"(csrf|token|xsrf|authenticity)", name, re.IGNORECASE)`
succeeds: one of the four keywords occurs in `name` case-insensitively
(ASCII model of the case folding). -/
def tokenMatch (name : String) : Bool :=
  tokenKeywords.any fun kw => containsSeq kw.data (lowerChars name.data)

/-- The scanning loop of `analyze_form` (`src/main.py` lines 81-87): walk the
descendant inputs in document order; for the first one whose `type`
attribute equals `"hidden"` and whose `name` is truthy (present and
nonempty) and matches the token pattern, return that name and stop. -/
def findCsrfToken : List InputField → Option String
  | [] => none
  | inp :: rest =>
    if inp.type = some "hidden" then
      match inp.name with
      | some n => if n ≠ "" && tokenMatch n then some n else findCsrfToken rest
      | none => findCsrfToken rest
    else findCsrfToken rest

/-- `analyze_form` (`src/main.py` lines 60-99): method defaults to `"GET"`
and is uppercased; action defaults to the page URL and is resolved with
`urljoin`; the token scan fills `has_csrf_token`/`token_name`.  The
`except` clause converts any exception (in this pipeline, only `urljoin`
can raise) into the failure value `None`, embedded as `none`. -/
def analyze_form (form : Form) (url : String) : Option AnalysisResult :=
  let method := strUpper (form.method.getD "GET")
  let action0 := form.action.getD url
  match urljoin url action0 with
  | .error _ => none
  | .ok action =>
    let tok := findCsrfToken form.inputs
    some ⟨tok.isSome, tok, method, action⟩

/-- Abstract outcome of `requests.get(url, timeout=10)`: a network-level
failure (`requests.exceptions.RequestException`: DNS, connection refused,
timeout), or a response carrying its HTTP status code and the outcome of
parsing its body with BeautifulSoup (`.error` when the parser raises,
otherwise the `<form>` elements in document order). -/
inductive HttpResponse where
  | netFailure
  | response (status : Nat) (parse : Except String (List Form))
deriving Repr, DecidableEq

/-- `requests.Response.raise_for_status` raises exactly when the status code
is in 400..599 (client or server error). -/
def raisesForStatus (status : Nat) : Bool := 400 ≤ status && status < 600

/-- `get_forms` (`src/main.py` lines 37-58) over the abstract fetch outcome:
a `RequestException` (network failure, or the `HTTPError` raised by
`raise_for_status` on a 4xx/5xx status) is caught and yields `[]`; any
parsing exception is caught and yields `[]`; otherwise the parsed form
list is returned. -/
def get_forms (resp : HttpResponse) : List Form :=
  match resp with
  | .netFailure => []
  | .response status parse =>
    if raisesForStatus status then []
    else
      match parse with
      | .error _ => []
      | .ok forms => forms

/-- The per-form report lines `main` emits (`src/main.py` lines 125-138),
abstracted: index `i` is the 1-based form number of the log messages. -/
inductive ReportEvent where
  | invalidUrl
  | noForms
  | formResult (i : Nat) (r : AnalysisResult)
  | formFailure (i : Nat)
deriving Repr, DecidableEq

/-- Reporting for one form: a normal analysis is logged with its result; a
`None` from `analyze_form` is logged as a per-form failure. -/
def reportForm (url : String) (i : Nat) (form : Form) : ReportEvent :=
  match analyze_form form url with
  | some r => .formResult (i + 1) r
  | none => .formFailure (i + 1)

/-- `main` (`src/main.py` lines 101-138), given the URL argument and the
abstract fetch outcome: returns the process exit code together with the
report events.  An invalid URL exits 1; no forms exits 0 after an
informational message; otherwise every form is analyzed in order and the
process falls off the end of `main` (exit code 0). -/
def runMain (url : String) (resp : HttpResponse) : Nat × List ReportEvent :=
  if !(validate_url url) then (1, [.invalidUrl])
  else
    let forms := get_forms resp
    if forms.isEmpty then (0, [.noForms])
    else (0, forms.enum.map fun p => reportForm url p.1 p.2)

/-- Modelled from the spec: the set of "uppercased HTTP verb strings"
(the spec's §8 invariant for the `method` field names this set; the HTTP
verbs are the nine RFC 9110 / RFC 5789 request methods). -/
def http_verbs : List String :=
  ["GET", "HEAD", "POST", "PUT", "DELETE", "CONNECT", "OPTIONS", "TRACE", "PATCH"]

/-- The scheme characters of a URL string as `urlsplit` would extract them
(empty when the string carries no scheme of its own). -/
def urlSchemeChars (l : List Char) : List Char :=
  match extractScheme (sanitizeUrl l) with
  | some (sch, _) => sch
  | none => []

/-- The scheme of a string as `urlsplit` would extract it (`""` when the
string carries no scheme). -/
def urlScheme (s : String) : String := String.mk (urlSchemeChars s.data)

/-- A string is an absolute URL-reference when it carries a scheme. -/
def isAbsoluteUrl (s : String) : Bool := urlScheme s ≠ ""

/-- A well-formed lowercase scheme string: nonempty, led by an ASCII letter,
made of `scheme_chars`, fixed by lowercasing, free of colon and of
sanitised-away characters.  Every nonempty scheme in `uses_relative` has
this shape. -/
def schemeWF (s : String) : Bool :=
  match s.data with
  | [] => false
  | c :: rest =>
    isAsciiAlpha c && (c :: rest).all schemeChar &&
    decide (lowerChars (c :: rest) = c :: rest) &&
    (c :: rest).all (fun x => !isUnsafeChar x && !isC0OrSpace x) &&
    !((c :: rest).contains ':')

/-- The claim-side reading of the scanning condition of `analyze_form`:
a descendant input whose `type` attribute is exactly `"hidden"` and whose
`name` attribute matches the token pattern. -/
def isTokenInput (inp : InputField) : Bool :=
  inp.type = some "hidden" &&
  (match inp.name with
   | some n => tokenMatch n
   | none => false)

/-- A URL is in normal form when re-serializing its parse returns it
unchanged (no stray delimiters, no unsafe characters, no dot segments
hidden behind the netloc rule). -/
def normalForm (url : String) : Bool :=
  match urlparseD url "" with
  | .ok p => urlunparse p = url
  | .error _ => false

/-! ### Concrete instances used to witness the theorems below -/

/-- A sample page URL. -/
def pageUrl : String := "https://a.com/login"

/-- A form whose third descendant input is the first hidden input with a
token-like name (the first hidden input has a non-matching name, the second
input has a matching name but is not hidden). -/
def formC1 : Form :=
  ⟨none, none,
   [⟨some "hidden", some "user_id"⟩,
    ⟨some "text", some "csrf_visible"⟩,
    ⟨some "hidden", some "CSRF_Token"⟩,
    ⟨some "hidden", some "xsrf2"⟩]⟩

/-- The analysis `analyze_form` returns for `formC1` on `pageUrl`. -/
def resC1 : AnalysisResult := ⟨true, some "CSRF_Token", "GET", "https://a.com/login"⟩

/-- A form with a lowercase `method` attribute and an empty `action`. -/
def formC5 : Form := ⟨some "post", some "", []⟩

/-- The analysis `analyze_form` returns for `formC5` on `pageUrl`. -/
def resC5 : AnalysisResult := ⟨false, none, "POST", "https://a.com/login"⟩

/-- A form with a relative action and no inputs. -/
def formC2 : Form := ⟨none, some "/submit", []⟩

/-- The analysis `analyze_form` returns for `formC2` on `pageUrl`. -/
def resC2 : AnalysisResult := ⟨false, none, "GET", "https://a.com/submit"⟩

/-- The parse of `pageUrl`. -/
def parsedPageUrl : ParseResult := ⟨"https", "a.com", "/login", "", "", ""⟩

/-- A form whose action contains an unmatched bracket, so that resolving it
raises `ValueError("Invalid IPv6 URL")` inside `analyze_form`. -/
def formBad : Form := ⟨none, some "http://[::1", []⟩

/-- A well-behaved form with one token-like hidden input. -/
def formGood : Form := ⟨none, none, [⟨some "hidden", some "csrf_token"⟩]⟩

/-- The page URL of the two-form witness run. -/
def urlW : String := "https://a.com/x"

/-- A successful fetch whose page holds `formBad` then `formGood`. -/
def respW : HttpResponse := .response 200 (.ok [formBad, formGood])

/-- The tail of the input list in the skipped-hidden-input witness: a later
hidden input with a token-like name. -/
def restC9 : List InputField := [⟨some "hidden", some "token1"⟩]

/-! ### Helper lemmas about the token scan and `analyze_form` -/

theorem tokenMatch_empty : tokenMatch "" = false := by decide

theorem isTokenInput_name {inp : InputField} (h : isTokenInput inp = true) :
    ∃ n, inp.name = some n ∧ tokenMatch n = true := by
  unfold isTokenInput at h
  cases hn : inp.name with
  | none => rw [hn] at h; simp at h
  | some n =>
    rw [hn] at h
    simp only [Bool.and_eq_true] at h
    exact ⟨n, rfl, h.2⟩

theorem findCsrfToken_cons (inp : InputField) (rest : List InputField) :
    findCsrfToken (inp :: rest) =
      if isTokenInput inp = true then inp.name else findCsrfToken rest := by
  by_cases hty : inp.type = some "hidden"
  · cases hn : inp.name with
    | none => simp [findCsrfToken, isTokenInput, hty, hn]
    | some n =>
      cases htm : tokenMatch n with
      | false => simp [findCsrfToken, isTokenInput, hty, hn, htm]
      | true =>
        have hne : n ≠ "" := by
          intro he
          rw [he] at htm
          exact absurd htm (by decide)
        simp [findCsrfToken, isTokenInput, hty, hn, htm, hne]
  · simp [findCsrfToken, isTokenInput, hty]

theorem findCsrfToken_spec (l : List InputField) :
    (∃ l1 inp l2, l = l1 ++ inp :: l2 ∧ (∀ x ∈ l1, isTokenInput x = false) ∧
      isTokenInput inp = true ∧ findCsrfToken l = inp.name) ∨
    ((∀ x ∈ l, isTokenInput x = false) ∧ findCsrfToken l = none) := by
  induction l with
  | nil => right; exact ⟨fun x hx => absurd hx (by simp), rfl⟩
  | cons inp rest ih =>
    cases hti : isTokenInput inp with
    | true =>
      left
      exact ⟨[], inp, rest, rfl, (fun x hx => absurd hx (by simp)), hti,
        (by rw [findCsrfToken_cons, if_pos hti])⟩
    | false =>
      rcases ih with ⟨l1, x, l2, heq, hall, hx, hfind⟩ | ⟨hall, hfind⟩
      · left
        refine ⟨inp :: l1, x, l2, (by rw [heq]; rfl), ?_, hx, ?_⟩
        · intro y hy
          rcases List.mem_cons.mp hy with hy | hy
          · rw [hy]; exact hti
          · exact hall y hy
        · rw [findCsrfToken_cons, if_neg (by simp [hti]), hfind]
      · right
        refine ⟨?_, ?_⟩
        · intro y hy
          rcases List.mem_cons.mp hy with hy | hy
          · rw [hy]; exact hti
          · exact hall y hy
        · rw [findCsrfToken_cons, if_neg (by simp [hti]), hfind]

theorem findCsrfToken_matches {l : List InputField} {n : String}
    (h : findCsrfToken l = some n) : tokenMatch n = true := by
  induction l with
  | nil => exact absurd h (by simp [findCsrfToken])
  | cons inp rest ih =>
    rw [findCsrfToken_cons] at h
    by_cases hti : isTokenInput inp = true
    · rw [if_pos hti] at h
      obtain ⟨m, hm, htm⟩ := isTokenInput_name hti
      rw [hm] at h
      obtain rfl : m = n := Option.some.inj h
      exact htm
    · rw [if_neg hti] at h
      exact ih h

theorem analyze_form_some {form : Form} {url : String} {r : AnalysisResult}
    (h : analyze_form form url = some r) :
    r.has_csrf_token = (findCsrfToken form.inputs).isSome ∧
    r.token_name = findCsrfToken form.inputs ∧
    r.method = strUpper (form.method.getD "GET") ∧
    urljoin url (form.action.getD url) = .ok r.action := by
  unfold analyze_form at h
  dsimp only [] at h
  cases hj : urljoin url (form.action.getD url) with
  | error e => rw [hj] at h; exact absurd h (by simp)
  | ok a =>
    rw [hj] at h
    simp only [Option.some.injEq] at h
    subst h
    exact ⟨rfl, rfl, rfl, rfl⟩

/-! ### C1: first matching hidden input wins -/

/-- C1: for every form on which `analyze_form` returns a result, scanning the
descendant inputs in document order: if some input has `type` exactly
`"hidden"` and a `name` matching the case-insensitive token pattern, then
`has_csrf_token` is true and `token_name` is the name of the first such
input (everything before it fails the condition); otherwise `has_csrf_token`
is false and `token_name` is absent. -/
theorem analyze_form_first_matching_hidden_input
    (form : Form) (url : String) (r : AnalysisResult)
    (h : analyze_form form url = some r) :
    (∃ l1 inp l2, form.inputs = l1 ++ inp :: l2 ∧
       (∀ x ∈ l1, isTokenInput x = false) ∧ isTokenInput inp = true ∧
       r.has_csrf_token = true ∧ r.token_name = inp.name) ∨
    ((∀ x ∈ form.inputs, isTokenInput x = false) ∧
       r.has_csrf_token = false ∧ r.token_name = none) := by
  obtain ⟨hh, ht, -, -⟩ := analyze_form_some h
  rcases findCsrfToken_spec form.inputs with ⟨l1, inp, l2, heq, hall, hti, hfind⟩ | ⟨hall, hfind⟩
  · left
    obtain ⟨n, hn, -⟩ := isTokenInput_name hti
    refine ⟨l1, inp, l2, heq, hall, hti, ?_, ?_⟩
    · rw [hh, hfind, hn]; rfl
    · rw [ht, hfind]
  · right
    exact ⟨hall, (by rw [hh, hfind]; rfl), (by rw [ht, hfind])⟩

/-- Witness for C1 at a concrete form: the scan skips a hidden input with a
non-matching name and a non-hidden input with a matching name, and reports
the third input. -/
theorem analyze_form_first_matching_hidden_input_witness :
    (∃ l1 inp l2, formC1.inputs = l1 ++ inp :: l2 ∧
       (∀ x ∈ l1, isTokenInput x = false) ∧ isTokenInput inp = true ∧
       resC1.has_csrf_token = true ∧ resC1.token_name = inp.name) ∨
    ((∀ x ∈ formC1.inputs, isTokenInput x = false) ∧
       resC1.has_csrf_token = false ∧ resC1.token_name = none) :=
  analyze_form_first_matching_hidden_input formC1 pageUrl resC1 (by decide)

/-! ### C3: `has_csrf_token` iff `token_name` present -/

/-- C3: every successful result of `analyze_form` has `has_csrf_token` true
exactly when `token_name` is present. -/
theorem analyze_form_has_token_iff_name_present
    (form : Form) (url : String) (r : AnalysisResult)
    (h : analyze_form form url = some r) :
    r.has_csrf_token = true ↔ r.token_name ≠ none := by
  obtain ⟨hh, ht, -, -⟩ := analyze_form_some h
  rw [hh, ht]
  exact Option.isSome_iff_ne_none

/-- Witness for C3 at a concrete form with a token field. -/
theorem analyze_form_has_token_iff_name_present_witness :
    resC1.has_csrf_token = true ↔ resC1.token_name ≠ none :=
  analyze_form_has_token_iff_name_present formC1 pageUrl resC1 (by decide)

/-! ### C5: the method field -/

/-- Counterexample to C5 as stated: a form with `method="banana"` analyzes to
`method = "BANANA"`, which is not an uppercased HTTP verb; the code
uppercases the attribute without validating it against the verb list. -/
theorem analyze_form_method_not_http_verb :
    analyze_form ⟨some "banana", none, []⟩ "https://a.com/x" =
      some ⟨false, none, "BANANA", "https://a.com/x"⟩ ∧
    http_verbs.contains "BANANA" = false := by decide

/-- C5 (amended): the `method` field of every successful analysis is the
uppercased `method` attribute, defaulting to `"GET"` when the attribute is
absent; in particular a form with no `method` attribute yields `"GET"`. -/
theorem analyze_form_method_uppercase_default_get
    (form : Form) (url : String) (r : AnalysisResult)
    (h : analyze_form form url = some r) :
    r.method = strUpper (form.method.getD "GET") ∧
    (form.method = none → r.method = "GET") := by
  obtain ⟨-, -, hm, -⟩ := analyze_form_some h
  exact ⟨hm, fun hnone => by rw [hm, hnone]; decide⟩

/-- Witness for the amended C5 at a concrete form with `method="post"`. -/
theorem analyze_form_method_uppercase_default_get_witness :
    resC5.method = strUpper (formC5.method.getD "GET") ∧
    (formC5.method = none → resC5.method = "GET") :=
  analyze_form_method_uppercase_default_get formC5 pageUrl resC5 (by decide)

/-! ### C9: hidden inputs without a name are skipped harmlessly -/

/-- C9: a descendant input whose `type` is `"hidden"` but whose `name` is
absent or empty is skipped: it is never recorded as the token name, the scan
continues with the later inputs, and `analyze_form` behaves exactly as if
the input were not there (in particular it does not enter the failure
branch because of it). -/
theorem hidden_input_without_name_skipped
    (inp : InputField) (hty : inp.type = some "hidden")
    (hname : inp.name = none ∨ inp.name = some "")
    (m a : Option String) (rest : List InputField) (url : String) :
    findCsrfToken (inp :: rest) = findCsrfToken rest ∧
    analyze_form ⟨m, a, inp :: rest⟩ url = analyze_form ⟨m, a, rest⟩ url := by
  have hti : isTokenInput inp = false := by
    unfold isTokenInput
    rcases hname with hname | hname <;> simp [hname, tokenMatch_empty]
  have hstep : findCsrfToken (inp :: rest) = findCsrfToken rest := by
    rw [findCsrfToken_cons, if_neg (by simp [hti])]
  refine ⟨hstep, ?_⟩
  unfold analyze_form
  cases hj : urljoin url (a.getD url) <;> simp [hj, hstep]

/-- Witness for C9: a nameless hidden input ahead of a named token input is
skipped and the scan still finds the later token. -/
theorem hidden_input_without_name_skipped_witness :
    findCsrfToken (⟨some "hidden", none⟩ :: restC9) = findCsrfToken restC9 ∧
    analyze_form ⟨none, none, ⟨some "hidden", none⟩ :: restC9⟩ pageUrl =
      analyze_form ⟨none, none, restC9⟩ pageUrl :=
  hidden_input_without_name_skipped ⟨some "hidden", none⟩ rfl (Or.inl rfl)
    none none restC9 pageUrl

/-! ### C10: a reported token name always matches the pattern -/

/-- C10: whenever `analyze_form` reports `has_csrf_token = true`, the
reported `token_name` contains one of `csrf`, `token`, `xsrf`,
`authenticity` as a case-insensitive substring. -/
theorem reported_token_name_matches_pattern
    (form : Form) (url : String) (r : AnalysisResult)
    (h : analyze_form form url = some r) (htok : r.has_csrf_token = true) :
    ∃ n, r.token_name = some n ∧
      ∃ kw ∈ tokenKeywords, containsSeq kw.data (lowerChars n.data) = true := by
  obtain ⟨hh, ht, -, -⟩ := analyze_form_some h
  rw [hh] at htok
  obtain ⟨n, hn⟩ := Option.isSome_iff_exists.mp htok
  refine ⟨n, by rw [ht, hn], ?_⟩
  have := findCsrfToken_matches hn
  unfold tokenMatch at this
  simpa using List.any_eq_true.mp this

/-- Witness for C10 at a concrete form. -/
theorem reported_token_name_matches_pattern_witness :
    ∃ n, resC1.token_name = some n ∧
      ∃ kw ∈ tokenKeywords, containsSeq kw.data (lowerChars n.data) = true :=
  reported_token_name_matches_pattern formC1 pageUrl resC1 (by decide) (by decide)

/-! ### C6: exit codes -/

/-- C6: the exit code is 1 exactly when the URL fails validation; every
other run — whatever the fetch outcome, including no forms found, a failed
fetch, or failing per-form analyses — exits 0. -/
theorem main_exit_code_iff_invalid_url (url : String) (resp : HttpResponse) :
    (runMain url resp).1 = if validate_url url = true then 0 else 1 := by
  unfold runMain
  cases hv : validate_url url with
  | false => simp
  | true =>
    simp only [Bool.not_true, Bool.false_eq_true, if_false, if_true]
    split <;> rfl

/-! ### C7: get_forms error handling -/

/-- Counterexample to C7 as stated: a (nonstandard) status-600 response is
outside both the 2xx/3xx range and the 400..599 range `raise_for_status`
checks, yet `get_forms` returns the forms parsed from its body, so forms are
not returned *only* on 2xx/3xx responses. -/
theorem get_forms_returns_forms_outside_2xx3xx :
    get_forms (.response 600 (.ok [⟨none, none, []⟩])) = [⟨none, none, []⟩] ∧
    ¬(200 ≤ 600 ∧ 600 < 400) ∧ ([(⟨none, none, []⟩ : Form)] ≠ []) := by decide

/-- C7 (amended): `get_forms` is total (never propagates an exception): a
network-level failure yields `[]`, a response whose status is in 400..599
(exactly the statuses `raise_for_status` raises on) yields `[]`, a response
whose body fails to parse yields `[]`; on any other response — in
particular every successful 2xx/3xx response — it returns the form elements
parsed from the body. -/
theorem get_forms_error_handling_amended :
    get_forms .netFailure = [] ∧
    (∀ s p, 400 ≤ s → s < 600 → get_forms (.response s p) = []) ∧
    (∀ s e, get_forms (.response s (.error e)) = []) ∧
    (∀ s forms, ¬(400 ≤ s ∧ s < 600) → get_forms (.response s (.ok forms)) = forms) := by
  refine ⟨rfl, ?_, ?_, ?_⟩
  · intro s p h1 h2
    have hrs : raisesForStatus s = true := by unfold raisesForStatus; simp [h1, h2]
    simp [get_forms, hrs]
  · intro s e
    cases hrs : raisesForStatus s <;> simp [get_forms, hrs]
  · intro s forms h
    have hrs : raisesForStatus s = false := by
      cases hb : raisesForStatus s
      · rfl
      · exfalso
        apply h
        unfold raisesForStatus at hb
        simpa using hb
    simp [get_forms, hrs]

/-- Witness for the amended C7: a 200 response with one form yields that
form; a 404 response with the same parseable body yields `[]`. -/
theorem get_forms_error_handling_amended_witness :
    get_forms (.response 200 (.ok [formGood])) = [formGood] ∧
    get_forms (.response 404 (.ok [formGood])) = [] :=
  ⟨get_forms_error_handling_amended.2.2.2 200 [formGood] (by decide),
   get_forms_error_handling_amended.2.1 404 (.ok [formGood]) (by decide) (by decide)⟩

/-! ### C8: one form's failure never aborts the run -/

/-- C8: the failure value of `analyze_form` (`None`) is distinct from every
normal result, and the orchestrator processes every extracted form: the
report has exactly one event per form, and the event for the i-th form is
determined by that form alone — a failure event when its analysis failed, a
result event otherwise — regardless of what happened to other forms. -/
theorem analyze_failure_isolated (url : String) (resp : HttpResponse)
    (hv : validate_url url = true) (hne : (get_forms resp).isEmpty = false) :
    (∀ (f : Form) (u : String) (r : AnalysisResult),
       analyze_form f u = none → analyze_form f u ≠ some r) ∧
    (runMain url resp).2.length = (get_forms resp).length ∧
    (∀ i form, (get_forms resp)[i]? = some form →
       (runMain url resp).2[i]? = some (reportForm url i form)) := by
  have hrun : (runMain url resp).2 = (get_forms resp).enum.map fun p => reportForm url p.1 p.2 := by
    simp only [runMain, hv, hne, Bool.not_true, Bool.false_eq_true, if_false]
  refine ⟨fun f u r hn hs => by rw [hn] at hs; exact absurd hs (by simp), ?_, ?_⟩
  · rw [hrun, List.length_map, List.enum_length]
  · intro i form hf
    rw [hrun, List.getElem?_map, List.getElem?_enum, hf]
    rfl

/-- Witness for C8: a run over two forms where the first form's action
raises inside `analyze_form` (unmatched bracket) and the second is normal:
both events are reported, the first as a failure and the second as a
result. -/
theorem analyze_failure_isolated_witness :
    (runMain urlW respW).2.length = (get_forms respW).length ∧
    (runMain urlW respW).2[0]? = some (reportForm urlW 0 formBad) ∧
    reportForm urlW 0 formBad = .formFailure 1 ∧
    reportForm urlW 1 formGood = .formResult 2 ⟨true, some "csrf_token", "GET", urlW⟩ :=
  ⟨(analyze_failure_isolated urlW respW (by decide) (by decide)).2.1,
   (analyze_failure_isolated urlW respW (by decide) (by decide)).2.2 0 formBad (by decide),
   by decide, by decide⟩

/-! ### C4: validate_url -/

/-- C4: `validate_url` returns true exactly when the URL parses with a
nonempty scheme and a nonempty network location, and a parse error (a
raised `ValueError`) is caught and yields false rather than propagating
(the function is total). -/
theorem validate_url_scheme_netloc (url : String) :
    (validate_url url = true ↔
      ∃ p, urlparseD url "" = .ok p ∧ p.scheme ≠ "" ∧ p.netloc ≠ "") ∧
    (∀ e, urlparseD url "" = .error e → validate_url url = false) := by
  constructor
  · constructor
    · intro hv
      unfold validate_url at hv
      cases hp : urlparseD url "" with
      | error e => rw [hp] at hv; exact absurd hv (by simp)
      | ok p =>
        rw [hp] at hv
        simp only [Bool.and_eq_true, decide_eq_true_eq] at hv
        exact ⟨p, rfl, hv.1, hv.2⟩
    · rintro ⟨p, hp, h1, h2⟩
      unfold validate_url
      rw [hp]
      simp [h1, h2]
  · intro e he
    unfold validate_url
    rw [he]

/-- Witness for C4: a malformed URL whose parse raises (`"http://[::1"`,
unmatched bracket) yields false; a URL lacking a scheme yields false; a URL
with scheme and netloc yields true. -/
theorem validate_url_scheme_netloc_witness :
    validate_url "http://[::1" = false ∧
    validate_url "not-a-url" = false ∧
    validate_url "https://a.com/login" = true :=
  ⟨(validate_url_scheme_netloc "http://[::1").2 "Invalid IPv6 URL" (by decide),
   (by
      have h := (validate_url_scheme_netloc "not-a-url").1
      cases hv : validate_url "not-a-url"
      · rfl
      · obtain ⟨p, hp, h1, h2⟩ := h.mp hv
        have : p = ⟨"", "", "not-a-url", "", "", ""⟩ := by
          have : urlparseD "not-a-url" "" = .ok ⟨"", "", "not-a-url", "", "", ""⟩ := by decide
          rw [this] at hp
          exact (Except.ok.inj hp).symm
        rw [this] at h1
        exact absurd rfl h1),
   (validate_url_scheme_netloc "https://a.com/login").1.mpr
     ⟨⟨"https", "a.com", "/login", "", "", ""⟩, by decide, by decide, by decide⟩⟩

/-! ### Lemmas about scheme extraction and re-serialization (for C2) -/

theorem data_append (a b : String) : (a ++ b).data = a.data ++ b.data := rfl

theorem mk_ne_empty {l : List Char} (h : l ≠ []) : String.mk l ≠ "" :=
  fun hc => h (congrArg String.data hc)

theorem splitOnce_append {sep : Char} (A B : List Char) (h : A.contains sep = false) :
    splitOnce sep (A ++ sep :: B) = some (A, B) := by
  induction A with
  | nil => simp [splitOnce]
  | cons c t ih =>
    simp only [List.contains_cons, Bool.or_eq_false_iff] at h
    have hc : ¬(c = sep) := by
      intro he
      rw [he] at h
      simp at h
    rw [List.cons_append]
    unfold splitOnce
    rw [if_neg hc, ih h.2]
    rfl

theorem removeUnsafe_append (A B : List Char) :
    removeUnsafe (A ++ B) = removeUnsafe A ++ removeUnsafe B :=
  List.filter_append A B

theorem removeUnsafe_eq_self {A : List Char} (h : ∀ x ∈ A, isUnsafeChar x = false) :
    removeUnsafe A = A :=
  List.filter_eq_self.mpr (fun a ha => by simp [h a ha])

theorem dropWhile_eq_self_of_head {p : Char → Bool} {c : Char} {t : List Char}
    (h : p c = false) : (c :: t).dropWhile p = c :: t := by
  simp [List.dropWhile, h]

theorem schemeWF_spec {s : String} (h : schemeWF s = true) :
    ∃ c rest, s.data = c :: rest ∧ isAsciiAlpha c = true ∧
      (c :: rest).all schemeChar = true ∧ lowerChars (c :: rest) = c :: rest ∧
      (∀ x ∈ c :: rest, isUnsafeChar x = false ∧ isC0OrSpace x = false) ∧
      (c :: rest).contains ':' = false := by
  unfold schemeWF at h
  cases hd : s.data with
  | nil => rw [hd] at h; exact absurd h (by simp)
  | cons c rest =>
    rw [hd] at h
    simp only [Bool.and_eq_true, Bool.not_eq_true', decide_eq_true_eq, List.all_eq_true] at h
    refine ⟨c, rest, rfl, h.1.1.1.1, ?_, h.1.1.2, ?_, h.2⟩
    · simp only [List.all_eq_true]
      exact h.1.1.1.2
    · intro x hx
      have := h.1.2 x hx
      simp only [Bool.and_eq_true, Bool.not_eq_true'] at this
      exact this

theorem urlSchemeChars_prefix {s : String} (h : schemeWF s = true) (rest : List Char) :
    urlSchemeChars (s.data ++ ':' :: rest) = s.data := by
  obtain ⟨c, cs, hd, halpha, hchars, hlower, hclean, hcolon⟩ := schemeWF_spec h
  rw [hd]
  unfold urlSchemeChars sanitizeUrl
  have hc0 : isC0OrSpace c = false := (hclean c (by simp)).2
  rw [List.cons_append]
  unfold lstripC0
  rw [dropWhile_eq_self_of_head hc0, ← List.cons_append]
  have hru : removeUnsafe ((c :: cs) ++ ':' :: rest) =
      (c :: cs) ++ ':' :: removeUnsafe rest := by
    rw [removeUnsafe_append, removeUnsafe_eq_self (fun x hx => (hclean x hx).1)]
    have : removeUnsafe (':' :: rest) = ':' :: removeUnsafe rest := by
      unfold removeUnsafe
      rw [List.filter_cons]
      simp [isUnsafeChar]
    rw [this]
  rw [hru]
  unfold extractScheme
  rw [splitOnce_append _ _ hcolon]
  simp only [Bool.and_eq_true] at hchars ⊢
  rw [if_pos (by simp [halpha, List.all_eq_true] at hchars ⊢; exact hchars)]
  · exact hlower

theorem urlunsplit_data (scheme netloc path query fragment : String) (h : scheme ≠ "") :
    ∃ rest, (urlunsplit scheme netloc path query fragment).data =
      scheme.data ++ ':' :: rest := by
  unfold urlunsplit
  dsimp only []
  rw [if_pos h]
  split
  · split
    · exact ⟨(netlocPart scheme netloc path).data ++ '?' :: query.data ++ '#' :: fragment.data,
        by simp [data_append, List.append_assoc]⟩
    · exact ⟨(netlocPart scheme netloc path).data ++ '#' :: fragment.data,
        by simp [data_append, List.append_assoc]⟩
  · split
    · exact ⟨(netlocPart scheme netloc path).data ++ '?' :: query.data,
        by simp [data_append, List.append_assoc]⟩
    · exact ⟨(netlocPart scheme netloc path).data, by simp [data_append]⟩

theorem schemeWF_ne_empty {s : String} (h : schemeWF s = true) : s ≠ "" := by
  obtain ⟨c, cs, hd, -⟩ := schemeWF_spec h
  intro he
  rw [he] at hd
  cases hd

theorem isAbsoluteUrl_urlunsplit {s : String} (h : schemeWF s = true)
    (n p q f : String) : isAbsoluteUrl (urlunsplit s n p q f) = true := by
  obtain ⟨rest, hdata⟩ := urlunsplit_data s n p q f (schemeWF_ne_empty h)
  unfold isAbsoluteUrl urlScheme
  rw [hdata, urlSchemeChars_prefix h rest]
  have : String.mk s.data = s := rfl
  rw [this]
  exact decide_eq_true (schemeWF_ne_empty h)

theorem extractScheme_some_ne {l a b} (h : extractScheme l = some (a, b)) : a ≠ [] := by
  unfold extractScheme at h
  cases h1 : splitOnce ':' l with
  | none => rw [h1] at h; exact absurd h (by simp)
  | some pr =>
    rw [h1] at h
    obtain ⟨pre, post⟩ := pr
    cases pre with
    | nil => exact absurd h (by simp)
    | cons c rest =>
      dsimp only [] at h
      split at h
      · simp only [Option.some.injEq, Prod.mk.injEq] at h
        rw [← h.1]
        simp [lowerChars]
      · exact absurd h (by simp)

theorem urlsplitD_ok_scheme {s d : String} {r : SplitResult} (h : urlsplitD s d = .ok r) :
    (urlSchemeChars s.data ≠ [] ∧ r.scheme = String.mk (urlSchemeChars s.data)) ∨
    (urlSchemeChars s.data = [] ∧ r.scheme = String.mk (sanitizeScheme d.data)) := by
  have hsch : r.scheme = String.mk (schemeSplit (sanitizeUrl s.data) d).1 := by
    unfold urlsplitD at h
    dsimp only [] at h
    split at h
    · exact absurd h (by simp)
    · split at h
      · exact absurd h (by simp)
      · have := (Except.ok.inj h)
        rw [← this]
  unfold urlSchemeChars
  unfold schemeSplit at hsch
  cases hex : extractScheme (sanitizeUrl s.data) with
  | some pr =>
    obtain ⟨a, b⟩ := pr
    rw [hex] at hsch
    left
    exact ⟨extractScheme_some_ne hex, hsch⟩
  | none =>
    rw [hex] at hsch
    right
    exact ⟨rfl, hsch⟩

theorem urlparseD_ok {s d : String} {p : ParseResult} (h : urlparseD s d = .ok p) :
    ∃ r, urlsplitD s d = .ok r ∧ p.scheme = r.scheme ∧ p.netloc = r.netloc := by
  unfold urlparseD at h
  cases hr : urlsplitD s d with
  | error e => rw [hr] at h; exact absurd h (by simp [Except.map])
  | ok r =>
    rw [hr] at h
    simp only [Except.map, Except.ok.injEq] at h
    refine ⟨r, rfl, ?_, ?_⟩ <;> (rw [← h]; split <;> rfl)

theorem sanitizeScheme_of_wf {s : String} (h : schemeWF s = true) :
    sanitizeScheme s.data = s.data := by
  obtain ⟨c, cs, hd, -, -, -, hclean, -⟩ := schemeWF_spec h
  rw [hd]
  unfold sanitizeScheme stripC0
  have h1 : (c :: cs).dropWhile isC0OrSpace = c :: cs :=
    dropWhile_eq_self_of_head (hclean c (by simp)).2
  rw [h1]
  have h2 : (c :: cs).reverse.dropWhile isC0OrSpace = (c :: cs).reverse := by
    cases hrev : (c :: cs).reverse with
    | nil => rfl
    | cons y t =>
      refine dropWhile_eq_self_of_head ?_
      have hy : y ∈ c :: cs := by
        rw [← List.mem_reverse, hrev]
        simp
      exact (hclean y hy).2
  rw [h2, List.reverse_reverse]
  exact removeUnsafe_eq_self (fun x hx => (hclean x hx).1)

theorem urlparseD_own_scheme {s : String} {b : ParseResult}
    (hb : urlparseD s "" = .ok b) (hs : b.scheme ≠ "") :
    urlSchemeChars s.data ≠ [] ∧ b.scheme = String.mk (urlSchemeChars s.data) := by
  obtain ⟨r, hr, hsch, -⟩ := urlparseD_ok hb
  rcases urlsplitD_ok_scheme hr with ⟨h1, h2⟩ | ⟨h1, h2⟩
  · exact ⟨h1, by rw [hsch, h2]⟩
  · exfalso
    apply hs
    rw [hsch, h2]
    rfl

theorem schemeWF_of_uses_relative {s : String} (h : s ∈ uses_relative) (hne : s ≠ "") :
    schemeWF s = true := by
  have hall : uses_relative.all (fun t => decide (t = "") || schemeWF t) = true := by decide
  have := List.all_eq_true.mp hall s h
  simp only [Bool.or_eq_true, decide_eq_true_eq] at this
  rcases this with h1 | h1
  · exact absurd h1 hne
  · exact h1

theorem uses_netloc_of_uses_relative {s : String} (h : s ∈ uses_relative) :
    uses_netloc.contains s = true := by
  have hall : uses_relative.all (fun t => uses_netloc.contains t) = true := by decide
  exact List.all_eq_true.mp hall s h

theorem contains_of_mem_uses_relative {s : String} (h : s ∈ uses_relative) :
    uses_relative.contains s = true := by
  exact List.elem_iff.mpr h

theorem urlsplitD_default_irrel {s : String} (h : urlSchemeChars s.data ≠ []) (d : String) :
    urlsplitD s d = urlsplitD s "" := by
  unfold urlsplitD
  have heq : schemeSplit (sanitizeUrl s.data) d = schemeSplit (sanitizeUrl s.data) "" := by
    unfold schemeSplit
    cases hex : extractScheme (sanitizeUrl s.data) with
    | none =>
      exfalso
      apply h
      unfold urlSchemeChars
      rw [hex]
    | some pr => rfl
  rw [heq]

theorem urlparseD_default_irrel {s : String} (h : urlSchemeChars s.data ≠ []) (d : String) :
    urlparseD s d = urlparseD s "" := by
  unfold urlparseD
  rw [urlsplitD_default_irrel h d]

theorem joinParsed_eq_or (url : String) (b r : ParseResult) :
    ((r.scheme = b.scheme → uses_relative.contains r.scheme = false) ∧
       joinParsed url b r = url) ∨
    (r.scheme = b.scheme ∧ uses_relative.contains r.scheme = true ∧
       ∃ n p q f, joinParsed url b r = urlunsplit r.scheme n p q f) := by
  unfold joinParsed
  by_cases h1 : (decide ¬(r.scheme = b.scheme) || !(uses_relative.contains r.scheme)) = true
  · rw [if_pos h1]
    left
    refine ⟨?_, rfl⟩
    intro heq
    simp only [Bool.or_eq_true, decide_eq_true_eq, Bool.not_eq_true'] at h1
    rcases h1 with h1 | h1
    · exact absurd heq h1
    · exact h1
  · rw [if_neg h1]
    simp only [Bool.or_eq_true, decide_eq_true_eq, Bool.not_eq_true'] at h1
    push_neg at h1
    right
    refine ⟨h1.1, by simpa using h1.2, ?_⟩
    unfold urlunparse
    dsimp only []
    split
    · exact ⟨_, _, _, _, rfl⟩
    · split
      · exact ⟨_, _, _, _, rfl⟩
      · exact ⟨_, _, _, _, rfl⟩

theorem isAbsoluteUrl_of_chars {s : String} (h : urlSchemeChars s.data ≠ []) :
    isAbsoluteUrl s = true := by
  unfold isAbsoluteUrl urlScheme
  exact decide_eq_true (mk_ne_empty h)

theorem urljoin_ok_absolute {base ref out : String} {b : ParseResult}
    (hb : urlparseD base "" = .ok b) (hwf : schemeWF b.scheme = true)
    (hrel : b.scheme ∈ uses_relative)
    (hj : urljoin base ref = .ok out) :
    isAbsoluteUrl out = true := by
  have hsne : b.scheme ≠ "" := schemeWF_ne_empty hwf
  have hbase : base ≠ "" := by
    intro he
    subst he
    have hemp : urlparseD "" "" = .ok (⟨"", "", "", "", "", ""⟩ : ParseResult) := by decide
    rw [hemp] at hb
    have := Except.ok.inj hb
    apply hsne
    rw [← this]
  obtain ⟨hown, hbval⟩ := urlparseD_own_scheme hb hsne
  unfold urljoin at hj
  rw [if_neg hbase] at hj
  by_cases href : ref = ""
  · rw [if_pos href] at hj
    have := Except.ok.inj hj
    rw [← this]
    exact isAbsoluteUrl_of_chars hown
  · rw [if_neg href, hb] at hj
    dsimp only [] at hj
    cases hrr : urlparseD ref b.scheme with
    | error e => rw [hrr] at hj; exact absurd hj (by simp)
    | ok rr =>
      rw [hrr] at hj
      have hout := Except.ok.inj hj
      rcases joinParsed_eq_or ref b rr with ⟨hcond, hval⟩ | ⟨hsch, -, n, p, q, f, hval⟩
      · rw [← hout, hval]
        obtain ⟨r2, hr2, hs2, -⟩ := urlparseD_ok hrr
        rcases urlsplitD_ok_scheme hr2 with ⟨h1, -⟩ | ⟨-, h2⟩
        · exact isAbsoluteUrl_of_chars h1
        · exfalso
          have hdefault : rr.scheme = b.scheme := by
            rw [hs2, h2, sanitizeScheme_of_wf hwf]
          have := hcond hdefault
          rw [hdefault] at this
          rw [contains_of_mem_uses_relative hrel] at this
          cases this
      · rw [← hout, hval, hsch]
        exact isAbsoluteUrl_urlunsplit hwf n p q f

/-! ### C2: the resolved action URL -/

/-- Counterexample to C2 as stated.  First: for the valid page URL
`"foo://a.com/login"` (scheme `foo` is not in urllib's `uses_relative`
list), a relative action `"/submit"` is returned unresolved, so the action
is not always absolute.  Second: for the valid page URL
`"https://a.com/login?"`, a form with no action attribute resolves to the
re-serialized parse `"https://a.com/login"`, not to the page URL itself. -/
theorem analyze_form_action_not_always_absolute :
    (analyze_form formC2 "foo://a.com/login" =
       some ⟨false, none, "GET", "/submit"⟩ ∧
     validate_url "foo://a.com/login" = true ∧
     isAbsoluteUrl "/submit" = false) ∧
    (analyze_form ⟨none, none, []⟩ "https://a.com/login?" =
       some ⟨false, none, "GET", "https://a.com/login"⟩ ∧
     validate_url "https://a.com/login?" = true ∧
     ("https://a.com/login" : String) ≠ "https://a.com/login?") := by decide

/-- C2 (amended): for every form and every valid page URL whose scheme is in
urllib's `uses_relative` list (e.g. `http`/`https`), the resolved action of
a successful analysis is an absolute URL; a form with `action=""` resolves
to the page URL itself; a form with no `action` attribute resolves to the
page URL whenever the page URL is in normal form (in general: to its
re-serialization); an already-absolute action whose scheme differs from the
page's is returned unchanged; and the concrete example holds:
`"/submit"` on page `"https://a.com/login"` resolves to
`"https://a.com/submit"`. -/
theorem analyze_form_action_resolution_amended
    (form : Form) (url : String) (r : AnalysisResult) (b : ParseResult)
    (h : analyze_form form url = some r)
    (hb : urlparseD url "" = .ok b)
    (hrel : b.scheme ∈ uses_relative) (hs : b.scheme ≠ "") (hn : b.netloc ≠ "") :
    isAbsoluteUrl r.action = true ∧
    (form.action = some "" → r.action = url) ∧
    (form.action = none → normalForm url = true → r.action = url) ∧
    (∀ act, form.action = some act → urlScheme act ≠ "" → urlScheme act ≠ b.scheme →
       r.action = act) ∧
    urljoin "https://a.com/login" "/submit" = .ok "https://a.com/submit" := by
  have hwf := schemeWF_of_uses_relative hrel hs
  obtain ⟨-, -, -, hj⟩ := analyze_form_some h
  have hbase : url ≠ "" := by
    intro he
    subst he
    have hemp : urlparseD "" "" = .ok (⟨"", "", "", "", "", ""⟩ : ParseResult) := by decide
    rw [hemp] at hb
    apply hs
    rw [← Except.ok.inj hb]
  refine ⟨urljoin_ok_absolute hb hwf hrel hj, ?_, ?_, ?_, by decide⟩
  · -- action="" resolves to the page URL itself
    intro ha
    rw [ha] at hj
    unfold urljoin at hj
    rw [if_neg hbase] at hj
    dsimp only [Option.getD] at hj
    rw [if_pos rfl] at hj
    exact (Except.ok.inj hj).symm
  · -- no action attribute: resolves to the page URL when it round-trips
    intro ha hnf
    rw [ha] at hj
    dsimp only [Option.getD] at hj
    unfold urljoin at hj
    rw [if_neg hbase, if_neg hbase, hb] at hj
    dsimp only [] at hj
    have hown := (urlparseD_own_scheme hb hs).1
    rw [urlparseD_default_irrel hown b.scheme, hb] at hj
    have hval : joinParsed url b b = urlunparse b := by
      unfold joinParsed
      rw [if_neg (by
        simp only [Bool.or_eq_true, decide_eq_true_eq, Bool.not_eq_true']
        push_neg
        exact ⟨rfl, by simpa using contains_of_mem_uses_relative hrel⟩)]
      rw [if_pos (by
        simp only [Bool.and_eq_true, decide_eq_true_eq]
        exact ⟨uses_netloc_of_uses_relative hrel, hn⟩)]
    dsimp only [] at hj
    rw [hval] at hj
    unfold normalForm at hnf
    rw [hb] at hnf
    have := of_decide_eq_true hnf
    rw [← Except.ok.inj hj, this]
  · -- an absolute action with a different scheme is returned unchanged
    intro act ha hne hnesch
    rw [ha] at hj
    dsimp only [Option.getD] at hj
    have hact : act ≠ "" := by
      intro he
      rw [he] at hne
      exact hne (by decide)
    have hown : urlSchemeChars act.data ≠ [] := by
      intro hz
      apply hne
      unfold urlScheme
      rw [hz]
    unfold urljoin at hj
    rw [if_neg hbase, if_neg hact, hb] at hj
    dsimp only [] at hj
    cases hrr : urlparseD act b.scheme with
    | error e => rw [hrr] at hj; exact absurd hj (by simp)
    | ok rr =>
      rw [hrr] at hj
      dsimp only [] at hj
      obtain ⟨r2, hr2, hs2, -⟩ := urlparseD_ok hrr
      rcases urlsplitD_ok_scheme hr2 with ⟨-, h2⟩ | ⟨h1, -⟩
      · have hrrs : rr.scheme = urlScheme act := by
          rw [hs2, h2]
          rfl
        have hval : joinParsed act b rr = act := by
          unfold joinParsed
          rw [if_pos (by
            simp only [Bool.or_eq_true, decide_eq_true_eq]
            left
            rw [hrrs]
            exact hnesch)]
        rw [hval] at hj
        exact (Except.ok.inj hj).symm
      · exact absurd h1 hown

/-- Witness for the amended C2 at a concrete form and page: the relative
action `"/submit"` on page `"https://a.com/login"` yields the absolute
`"https://a.com/submit"`. -/
theorem analyze_form_action_resolution_amended_witness :
    isAbsoluteUrl resC2.action = true ∧
    (formC2.action = some "" → resC2.action = pageUrl) ∧
    (formC2.action = none → normalForm pageUrl = true → resC2.action = pageUrl) ∧
    (∀ act, formC2.action = some act → urlScheme act ≠ "" →
       urlScheme act ≠ parsedPageUrl.scheme → resC2.action = act) ∧
    urljoin "https://a.com/login" "/submit" = .ok "https://a.com/submit" :=
  analyze_form_action_resolution_amended formC2 pageUrl resC2 parsedPageUrl
    (by decide) (by decide) (by decide) (by decide) (by decide)
